import Mathlib

/-
Verification of the RL decision-and-learning core of the ai-loadbalancer
repository.  The Python source under rl_agent/ is shallowly embedded:
float arithmetic is modelled by exact rationals, stateful methods by
explicit state passing, random draws by explicit parameters, and the
fitted sklearn discretizer (a transcendental quantile transform) by an
abstract transform parameter.  Each definition names the Python function
it embeds.
-/

namespace AILB

/-- Python int() conversion: truncation toward zero. -/
def pytrunc (q : ℚ) : ℤ := if 0 ≤ q then ⌊q⌋ else ⌈q⌉

/-- Discrete state key: the tuple of small integers produced by the encoder
(StateEncoder.encode_state). -/
abbrev StateKey := List ℤ

/-- One instance's telemetry snapshot, the fields consumed by
StateEncoder._extract_metrics_dict and ActionSelector._is_safe_to_explore.
Optional fields model values the monitoring backend may not have (None). -/
structure Metric where
  instance_id : String
  cpu_usage_percent : Option ℚ
  jvm_memory_usage_percent : Option ℚ
  avg_response_time_ms : Option ℚ
  error_rate_percent : Option ℚ
  request_rate_per_second : Option ℚ
deriving DecidableEq

/-- The five tracked metric dimensions (keys of StateEncoder.metric_bins). -/
inductive MetricName
  | avg_response_time_ms
  | cpu_usage_percent
  | error_rate_percent
  | jvm_memory_usage_percent
  | request_rate_per_second
deriving DecidableEq

/-- Bin count per dimension (StateEncodingConfig defaults: cpu_bins=16,
memory_bins=16, latency_bins=20, error_rate_bins=12, throughput_bins=16). -/
def metricBins : MetricName → ℕ
  | .avg_response_time_ms => 20
  | .cpu_usage_percent => 16
  | .error_rate_percent => 12
  | .jvm_memory_usage_percent => 16
  | .request_rate_per_second => 16

/-- Field access by dimension name (StateEncoder._extract_metrics_dict). -/
def metricValue (m : Metric) : MetricName → Option ℚ
  | .avg_response_time_ms => m.avg_response_time_ms
  | .cpu_usage_percent => m.cpu_usage_percent
  | .error_rate_percent => m.error_rate_percent
  | .jvm_memory_usage_percent => m.jvm_memory_usage_percent
  | .request_rate_per_second => m.request_rate_per_second

/-- Iteration order of StateEncoder._discretize_metrics:
`sorted(self.metric_bins.keys())`, i.e. the lexicographic order of the
Python attribute names. -/
def sortedMetricNames : List MetricName :=
  [.avg_response_time_ms, .cpu_usage_percent, .error_rate_percent,
   .jvm_memory_usage_percent, .request_rate_per_second]

/-- StateEncoder._fast_encode_state: fixed-width bucketing used while the
encoder is not fitted.  A missing (None) value yields bucket 0 in every
dimension; present values are bucketed by integer division with a cap. -/
def fastEncodeState (m : Metric) : StateKey :=
  let cpuBin : ℤ := match m.cpu_usage_percent with
    | none => 0
    | some c => min 4 (pytrunc (c / 25))
  let memoryBin : ℤ := match m.jvm_memory_usage_percent with
    | none => 0
    | some v => min 4 (pytrunc (v / 25))
  let rtBin : ℤ := match m.avg_response_time_ms with
    | none => 0
    | some v => min 4 (pytrunc (v / 100))
  let errorBin : ℤ := match m.error_rate_percent with
    | none => 0
    | some v => min 2 (pytrunc (v / 5))
  let rpsBin : ℤ := match m.request_rate_per_second with
    | none => 0
    | some v => min 4 (pytrunc (v / 50))
  [cpuBin, memoryBin, rtBin, errorBin, rpsBin]

/-- Abstraction of the fitted sklearn KBinsDiscretizer transform of
StateEncoder._discretize_metrics: `tr name v = some k` models a successful
`transform([[v]])` returning bin k; `none` models the NotFittedError or any
other exception, which the source turns into the fallback bin. -/
abbrev Transform := MetricName → ℚ → Option ℤ

/-- StateEncoder._discretize_metrics: post-fit encoding over the sorted
dimension names.  A missing value, an unfitted discretizer, or a
discretization error all yield the fallback bin `metric_bins // 2`. -/
def discretizeMetrics (tr : Transform) (m : Metric) : StateKey :=
  sortedMetricNames.map fun name =>
    match metricValue m name with
    | some v =>
      match tr name v with
      | some k => k
      | none => ((metricBins name / 2 : ℕ) : ℤ)
    | none => ((metricBins name / 2 : ℕ) : ℤ)

/-- StateEncoder.encode_state, pure computation path.  The source consults a
5-second TTL memo cache keyed by rounded head-metric values before computing;
the cache only replays previously computed results, so the computation itself
is as below: empty input gives the default state, otherwise only the FIRST
snapshot is encoded ("use first metric for speed"), with the pre-fit fast
path or the post-fit discretizer path. -/
def encodeState (isFitted : Bool) (tr : Transform) (ms : List Metric) : StateKey :=
  match ms with
  | [] => [0, 0, 0, 0, 0]
  | m :: _ => if isFitted then discretizeMetrics tr m else fastEncodeState m

/-- StateEncoder._get_metrics_cache_key: cache key from the FIRST snapshot's
rounded cpu / response-time / request-rate values. -/
def metricsCacheKey (ms : List Metric) : String :=
  match ms with
  | [] => "empty"
  | m :: _ =>
    let parts : List String :=
      (match m.cpu_usage_percent with
        | some c => ["cpu:" ++ toString (pytrunc (c / 5) * 5)]
        | none => []) ++
      (match m.avg_response_time_ms with
        | some v => ["rt:" ++ toString (pytrunc (v / 50) * 50)]
        | none => []) ++
      (match m.request_rate_per_second with
        | some v => ["rps:" ++ toString (pytrunc (v / 10) * 10)]
        | none => [])
    if parts.isEmpty then "default" else String.intercalate "|" parts

/-- Population variance (numpy.var with default ddof=0), used by
StateEncoder._encode_system_state. -/
def popVariance (xs : List ℚ) : ℚ :=
  let n : ℚ := xs.length
  let mean := xs.sum / n
  (xs.map (fun x => (x - mean) ^ 2)).sum / n

/-- StateEncoder._encode_system_state: instance-count bucket and
cross-instance CPU-variance bucket.  Present in the source but never invoked
by encode_state. -/
def encodeSystemState (ms : List Metric) : List ℤ :=
  if ms.isEmpty then [0, 0]
  else
    let serviceCountBin : ℤ := min ((ms.length : ℤ) / 2) 3
    let cpuValues := ms.filterMap (·.cpu_usage_percent)
    let varianceBin : ℤ :=
      if 1 < cpuValues.length then
        let variance := popVariance cpuValues
        if variance < 100 then 0 else if variance < 400 then 1 else 2
      else 0
    [serviceCountBin, varianceBin]

/-- Modelled from the spec for comparison with the code: "Encoding
additionally folds in two system-level features: a coarse bucket of instance
count, and a coarse bucket of cross-instance CPU variance", i.e. the
per-metric dimensions followed by the two system-level features. -/
def encodeStateWithSystemSpec (isFitted : Bool) (tr : Transform)
    (ms : List Metric) : StateKey :=
  encodeState isFitted tr ms ++ encodeSystemState ms

/-- Q-learning hyperparameters (QLearningConfig defaults from
config/rl_settings.py). -/
structure QConfig where
  learning_rate : ℚ
  discount_factor : ℚ
  epsilon_min : ℚ
  epsilon_decay : ℚ
  production_epsilon : ℚ
  exploration_episodes : ℕ
  benchmark_mode : Bool
deriving DecidableEq

/-- Default hyperparameters: learning_rate 0.3, discount_factor 0.95,
epsilon_min 0.01, epsilon_decay 0.99, production_epsilon 0.02,
exploration_episodes 100, benchmark_mode False. -/
def defaultQConfig : QConfig :=
  { learning_rate := 3/10
    discount_factor := 19/20
    epsilon_min := 1/100
    epsilon_decay := 99/100
    production_epsilon := 1/50
    exploration_episodes := 100
    benchmark_mode := false }

/-- One entry of ActionSelector.action_history; only the 'state' and 'action'
fields are ever read back by the selector. -/
structure HistEntry where
  state : StateKey
  action : String
deriving DecidableEq

/-- The Q-table: Python dict from (state tuple, action) to float, embedded as
an association list in insertion order. -/
abbrev QTable := List ((StateKey × String) × ℚ)

/-- Plain dict read with default: `q_table.get((s, a), 0.0)`. -/
def qget (t : QTable) (k : StateKey × String) : ℚ :=
  match t.find? (fun e => decide (e.1 = k)) with
  | some e => e.2
  | none => 0

/-- Key membership: `(s, a) in q_table`. -/
def qmem (t : QTable) (k : StateKey × String) : Bool :=
  t.any (fun e => decide (e.1 = k))

/-- Python list slice l[-n:]: the last n elements. -/
def lastN (l : List α) (n : ℕ) : List α := l.drop (l.length - n)

/-- Occurrences of a in l (Python list.count). -/
def countOccur (l : List String) (a : String) : ℕ :=
  (l.filter (fun x => x == a)).length

/-- ActionSelector._get_action_counts restricted to one action: how many
history entries selected it. -/
def actionCounts (hist : List HistEntry) (a : String) : ℕ :=
  (hist.filter (fun h => h.action == a)).length

/-- ActionSelector._calculate_action_diversity: unique fraction of the last
20 selected actions (1.0 when fewer than 10 entries exist). -/
def actionDiversity (hist : List HistEntry) : ℚ :=
  if hist.length < 10 then 1
  else
    let recent := (lastN hist 20).map (·.action)
    (recent.dedup.length : ℚ) / (recent.length : ℚ)

/-- ActionSelector._get_recent_performance_score: the source is a stub that
always returns the neutral score 0.5. -/
def recentPerformanceScore : ℚ := 1/2

/-- ActionSelector._calculate_adaptive_epsilon.  Note the final reduction
step compares the constant performance score 0.5 against the threshold 0.7,
so it never fires; it is kept exactly as coded. -/
def adaptiveEpsilon (cfg : QConfig) (hist : List HistEntry) (baseEps : ℚ)
    (episode : ℕ) : ℚ :=
  if cfg.benchmark_mode then cfg.production_epsilon
  else
    let d0 := max cfg.epsilon_min (baseEps * cfg.epsilon_decay ^ episode)
    let d1 := if 50 < hist.length ∧ actionDiversity hist < 3/10
      then min 1 (d0 * (3/2)) else d0
    let d2 := max (1/50) d1
    if cfg.exploration_episodes < episode ∧
        recentPerformanceScore > 7/10 ∧ actionDiversity hist > 1/2
      then d2 * (7/10) else d2

/-- Safety threshold check used by ActionSelector._is_safe_to_explore: a
present value above the limit is unsafe; an absent value is not checked. -/
def overLimit (v : Option ℚ) (lim : ℚ) : Bool :=
  match v with
  | some x => decide (lim < x)
  | none => false

/-- ActionSelector._is_safe_to_explore: look up the FIRST metric whose
instance_id equals the action (the loop breaks at the first match); unsafe
when its CPU > 95, memory > 95 or error rate > 10; safe when no metrics are
given or the action has no metrics entry. -/
def isSafeToExplore (action : String) (metrics : List Metric) : Bool :=
  match metrics.find? (fun mt => mt.instance_id == action) with
  | none => true
  | some mt =>
    !(overLimit mt.cpu_usage_percent 95) &&
    !(overLimit mt.jvm_memory_usage_percent 95) &&
    !(overLimit mt.error_rate_percent 10)

/-- Visits of a (state, action) pair in the history
(ActionSelector._ucb_selection's visit count). -/
def visitCount (hist : List HistEntry) (s : StateKey) (a : String) : ℕ :=
  (hist.filter (fun h => h.state == s && h.action == a)).length

/-- UCB score of one action: `none` models the float('inf') score of an
unvisited action; otherwise Q(s,a) plus the confidence term.  The
transcendental confidence `2*sqrt(ln(total)/visits)` is abstracted as the
parameter `conf total visits`. -/
def ucbScore (conf : ℕ → ℕ → ℚ) (hist : List HistEntry) (q : QTable)
    (s : StateKey) (a : String) : Option ℚ :=
  let n := visitCount hist s a
  if n = 0 then none else some (qget q (s, a) + conf hist.length n)

/-- Strict comparison in the order where `none` is plus infinity. -/
def scoreGT (x y : Option ℚ) : Bool :=
  match x, y with
  | none, none => false
  | none, some _ => true
  | some _, none => false
  | some a, some b => decide (b < a)

/-- First element attaining the maximal score.  The source sorts the scored
list with Python's stable sort (descending) and takes element 0, which is
exactly the first element whose score is maximal; the fold below keeps the
earlier element on ties. -/
def pickBest (score : String → Option ℚ) : List String → Option String
  | [] => none
  | a :: rest =>
    some (rest.foldl (fun best x => if scoreGT (score x) (score best) then x else best) a)

/-- ActionSelector._ucb_selection: None when the history is empty, otherwise
the available action with the highest UCB score. -/
def ucbSelection (conf : ℕ → ℕ → ℚ) (hist : List HistEntry) (q : QTable)
    (s : StateKey) (avail : List String) : Option String :=
  if hist.length = 0 then none
  else pickBest (ucbScore conf hist q s) avail

/-- Model of random.choice: an arbitrary index r picks l[r % len(l)]; for a
nonempty list this is always an element of l. -/
def choiceD (l : List String) (r : ℕ) : String := l.getD (r % l.length) ""

/-- The least-tried available actions: those whose total selection count
equals the minimum over the available actions
(ActionSelector._exploration_strategy, strategy 2). -/
def leastTriedActions (hist : List HistEntry) (avail : List String) : List String :=
  let minCount := (avail.map (actionCounts hist)).min?.getD 0
  avail.filter (fun a => actionCounts hist a == minCount)

/-- ActionSelector._exploration_strategy.  r1 r2 r3 are the random.choice
draws of the three choice sites.  Strategy 1 (UCB) applies once more than 10
history entries exist and its pick passes Python truthiness and the safety
check; strategy 2 picks among safe least-tried actions, else among all
least-tried actions (warning path); the final pure-random fallback (reached
in the source only when available_actions is empty, since the least-tried
set of a nonempty list is nonempty) filters by safety first. -/
def explorationStrategy (conf : ℕ → ℕ → ℚ) (hist : List HistEntry)
    (q : QTable) (s : StateKey) (avail : List String) (metrics : List Metric)
    (r1 r2 r3 : ℕ) : String :=
  let ucbStep : Option String :=
    if 10 < hist.length then
      match ucbSelection conf hist q s avail with
      | some a => if a != "" && isSafeToExplore a metrics then some a else none
      | none => none
    else none
  match ucbStep with
  | some a => a
  | none =>
    let leastTried := leastTriedActions hist avail
    let safeLeastTried := leastTried.filter (fun a => isSafeToExplore a metrics)
    if !safeLeastTried.isEmpty then choiceD safeLeastTried r1
    else if !leastTried.isEmpty then choiceD leastTried r2
    else
      let safeActions := avail.filter (fun a => isSafeToExplore a metrics)
      if !safeActions.isEmpty then choiceD safeActions r3
      else choiceD avail r3

/-- Best-set computation of ActionSelector._exploitation_strategy over the
sorted scored list: actions whose Q-value lies within tolerance
max(0.2, |maxQ|*0.15) of the maximum; a single best action already used 4+
times in the last 10 decisions is expanded to the top 3 of the sorted
list. -/
def bestActionSet (hist : List HistEntry) (sorted : List (String × ℚ))
    (maxq : ℚ) : List String :=
  let tolerance := max (1/5 : ℚ) (|maxq| * (3/20))
  let best0 := (sorted.filter (fun x => decide (|x.2 - maxq| ≤ tolerance))).map Prod.fst
  if best0.length = 1 then
    let recent10 := (lastN hist 10).map (·.action)
    if 5 ≤ recent10.length ∧ 4 ≤ countOccur recent10 (best0.headD "") then
      (sorted.take (min 3 sorted.length)).map Prod.fst
    else best0
  else best0

/-- ActionSelector._exploitation_strategy.  r4 is the random.choice draw of
the tie-break.  The scored list is sorted descending by Q-value with
Python's stable sort; the best set is taken from it, then ties are broken
by minimal usage in the last 15 decisions. -/
def exploitationStrategy (hist : List HistEntry) (q : QTable) (s : StateKey)
    (avail : List String) (r4 : ℕ) : String :=
  let aqv := avail.map (fun a => (a, qget q (s, a)))
  let sorted := List.insertionSort (fun x y : String × ℚ => x.2 ≥ y.2) aqv
  match sorted with
  | [] => ""
  | (_, maxq) :: _ =>
    let best := bestActionSet hist sorted maxq
    if best.length = 1 then best.headD ""
    else
      let recent15 := (lastN hist 15).map (·.action)
      let minUsage := (best.map (countOccur recent15)).min?.getD 0
      let leastUsedBest := best.filter (fun a => countOccur recent15 a == minUsage)
      if !leastUsedBest.isEmpty then choiceD leastUsedBest r4
      else choiceD best r4

/-- ActionSelector.select_action: raises ValueError on an empty action list;
otherwise explores when the random draw falls below the adaptive epsilon and
exploits otherwise.  `rand` models the random.random() draw, r1-r4 the
random.choice draws of the two strategies. -/
def select_action (cfg : QConfig) (conf : ℕ → ℕ → ℚ) (hist : List HistEntry)
    (q : QTable) (s : StateKey) (avail : List String) (epsilon : ℚ)
    (episode : ℕ) (metrics : List Metric) (rand : ℚ)
    (r1 r2 r3 r4 : ℕ) : Except String String :=
  if avail.isEmpty then .error "No available actions for selection"
  else
    let aeps := adaptiveEpsilon cfg hist epsilon episode
    if rand < aeps then
      .ok (explorationStrategy conf hist q s avail metrics r1 r2 r3)
    else
      .ok (exploitationStrategy hist q s avail r4)

/-- Read from the defaultdict(float) Q-table: a missing key is INSERTED with
value 0.0 by Python's defaultdict __missing__ before being returned, so the
read yields the value together with the possibly extended table. -/
def ddRead (t : QTable) (k : StateKey × String) : ℚ × QTable :=
  match t.find? (fun e => decide (e.1 = k)) with
  | some e => (e.2, t)
  | none => (0, t ++ [(k, 0)])

/-- Dict assignment `t[k] = v`: overwrite in place when the key exists,
append otherwise (Python dict insertion order). -/
def qset (t : QTable) (k : StateKey × String) (v : ℚ) : QTable :=
  match t with
  | [] => [(k, v)]
  | e :: rest => if e.1 = k then (k, v) :: rest else e :: qset rest k v

/-- QLearningAgent._get_possible_actions_for_state: the actions a with
(state, a) among the Q-table keys.  The source collects them into a set; the
only consumer takes a maximum over the mapped Q-values, which is insensitive
to the multiplicity of the listed actions, so duplicates are kept here. -/
def possibleActionsForState (t : QTable) (s : StateKey) : List String :=
  ((t.map (·.1)).filter (fun k => k.1 == s)).map (·.2)

/-- QLearningAgent._update_q_value: the Bellman update as coded.  The read
of the current Q-value goes through the defaultdict (inserting the key with
0.0 when absent) BEFORE the next-state action set is collected; the reads of
the next-state values hit existing keys only, hence are plain reads. -/
def update_q_value (cfg : QConfig) (t : QTable) (s : StateKey) (a : String)
    (reward : ℚ) (s' : StateKey) : QTable :=
  let r0 := ddRead t (s, a)
  let currentQ := r0.1
  let t1 := r0.2
  let nextQs := (possibleActionsForState t1 s').map (fun a2 => qget t1 (s', a2))
  let maxNextQ := nextQs.max?.getD 0
  let tdTarget := reward + cfg.discount_factor * maxNextQ
  let tdError := tdTarget - currentQ
  let newQ := currentQ + cfg.learning_rate * tdError
  qset t1 (s, a) newQ

/-- Modelled from the spec for comparison with the code: the Bellman rule
"Q(s,a) <- Q(s,a) + alpha*(r + gamma*max Q(s',a') - Q(s,a)) where max
ranges only over actions previously observed for s' (absent action set
implies 0)"; previously observed means recorded in the table as given. -/
def bellmanUpdateSpec (cfg : QConfig) (t : QTable) (s : StateKey) (a : String)
    (reward : ℚ) (s' : StateKey) : QTable :=
  let currentQ := qget t (s, a)
  let maxNextQ :=
    ((possibleActionsForState t s').map (fun a2 => qget t (s', a2))).max?.getD 0
  let newQ := currentQ +
    cfg.learning_rate * (reward + cfg.discount_factor * maxNextQ - currentQ)
  qset (if qmem t (s, a) then t else t ++ [((s, a), 0)]) (s, a) newQ

/-- The mutable learning state of QLearningAgent touched by the update and
feedback paths (episode bookkeeping lists are untouched by them and
elided). -/
structure Agent where
  q_table : QTable
  current_epsilon : ℚ
  episode_count : ℕ
  current_state : Option StateKey
  previous_state : Option StateKey
  last_action : Option String
  last_reward : ℚ
  previous_metrics : Option (List Metric)
deriving DecidableEq

/-- QLearningAgent.update_q_table: returns unchanged (warning only) when any
of previous_state / last_action / current_state is None; otherwise computes
the reward (RewardCalculator.calculate_reward is abstracted as rewardFn) and
the next state (StateEncoder.encode_state as encodeFn), performs the Bellman
update from previous_state, and advances current_state. -/
def update_q_table (cfg : QConfig)
    (rewardFn : List Metric → List Metric → String → ℚ)
    (encodeFn : List Metric → StateKey)
    (ag : Agent) (newMetrics prevMetrics : List Metric) : Agent :=
  match ag.previous_state, ag.last_action, ag.current_state with
  | some ps, some la, some _ =>
    let reward := rewardFn newMetrics prevMetrics la
    let nextState := encodeFn newMetrics
    { ag with
        q_table := update_q_value cfg ag.q_table ps la reward nextState
        last_reward := reward
        current_state := some nextState }
  | _, _, _ => ag

/-- One stored decision context of rl_decision_api's
decision_context_cache. -/
structure DecisionContext where
  previous_state : Option StateKey
  current_state : Option StateKey
  last_action : String
  service_metrics : List Metric
  timestamp : ℚ
deriving DecidableEq

/-- The decision_context_cache: keys "service:pod:millis" paired with the
stored context, in insertion order. -/
abbrev ContextCache := List (String × DecisionContext)

/-- Python str.startswith, modelled on the underlying character lists. -/
def strStartsWith (s pre : String) : Bool := pre.data.isPrefixOf s.data

/-- Context matching of provide_feedback: the first cache entry whose stored
action equals the reported pod, whose key starts with the service name, and
whose age is under the 30-second window. -/
def findDecisionContext (cache : ContextCache) (service pod : String)
    (now : ℚ) : Option (String × DecisionContext) :=
  cache.find? (fun kc =>
    kc.2.last_action == pod && strStartsWith kc.1 service &&
    decide (now - kc.2.timestamp < 30))

/-- Outcome field of the /feedback JSON response. -/
inductive FeedbackStatus
  | processed_and_learned
  | received_no_update
deriving DecidableEq

/-- The learning-relevant slice of the /feedback response. -/
structure FeedbackResult where
  status : FeedbackStatus
  reward : ℚ
deriving DecidableEq

/-- provide_feedback (rl_decision_api.py), state-transition core.  Looks up
a matching decision context (deleting it when found), falls back to the
agent's own pending state otherwise; when the resulting state info is
complete it computes the pod-specific reward (abstracted as podRewardFn,
with the request's latency / status-code / error flag folded into the
parameter), temporarily installs the context state on the agent, runs
update_q_table, restores the original state fields and records
previous_metrics; otherwise it returns the reward with no table update.
The metrics refetch, step counter and HTTP plumbing are elided. -/
def provide_feedback (cfg : QConfig)
    (rewardFn : List Metric → List Metric → String → ℚ)
    (encodeFn : List Metric → StateKey)
    (podRewardFn : String → List Metric → ℚ)
    (ag : Agent) (cache : ContextCache) (service pod : String) (now : ℚ)
    (currentMetrics : List Metric) : Agent × ContextCache × FeedbackResult :=
  let found := findDecisionContext cache service pod now
  let cache1 := match found with
    | some kc => cache.eraseP (fun e => e.1 == kc.1)
    | none => cache
  let info : Option StateKey × Option StateKey × Option String × List Metric :=
    match found with
    | some kc => (kc.2.previous_state, kc.2.current_state,
                  some kc.2.last_action, kc.2.service_metrics)
    | none => (ag.previous_state, ag.current_state, ag.last_action,
               ag.previous_metrics.getD currentMetrics)
  let hasStateInfo := info.1.isSome && info.2.2.1.isSome && info.2.1.isSome
  if hasStateInfo then
    let reward := podRewardFn pod currentMetrics
    let agSet := { ag with
      previous_state := info.1
      current_state := info.2.1
      last_action := info.2.2.1 }
    let agUpd := update_q_table cfg rewardFn encodeFn agSet currentMetrics info.2.2.2
    let agRestored := { agUpd with
      previous_state := ag.previous_state
      current_state := ag.current_state
      last_action := ag.last_action
      previous_metrics := some currentMetrics }
    (agRestored, cache1, ⟨.processed_and_learned, reward⟩)
  else
    (ag, cache1, ⟨.received_no_update, podRewardFn pod currentMetrics⟩)

/-- Circuit breaker states (rl_decision_api.CircuitBreaker). -/
inductive CBState
  | CLOSED
  | OPEN
  | HALF_OPEN
deriving DecidableEq

/-- The CircuitBreaker instance fields. -/
structure Breaker where
  failure_threshold : ℕ
  recovery_timeout : ℚ
  failure_count : ℕ
  last_failure_time : Option ℚ
  state : CBState
deriving DecidableEq

/-- CircuitBreaker.__init__ (the API instantiates failure_threshold=3,
recovery_timeout=20). -/
def Breaker.init (thr : ℕ) (timeout : ℚ) : Breaker :=
  ⟨thr, timeout, 0, none, CBState.CLOSED⟩

/-- CircuitBreaker.call: `ok` is the wrapped agent call's outcome.  Returns
(new breaker, whether the agent was invoked, whether the call raised).
While OPEN within the cooldown it raises without invoking; past the cooldown
it moves to HALF_OPEN and invokes; a success in HALF_OPEN closes the breaker
and resets the count; a failure increments the count, stamps the time, and
opens the breaker when the count reaches the threshold. -/
def Breaker.call (b : Breaker) (now : ℚ) (ok : Bool) : Breaker × Bool × Bool :=
  let proceed : Option Breaker :=
    if b.state = CBState.OPEN then
      if b.recovery_timeout < now - b.last_failure_time.getD 0 then
        some { b with state := CBState.HALF_OPEN }
      else none
    else some b
  match proceed with
  | none => (b, false, true)
  | some b1 =>
    if ok then
      (if b1.state = CBState.HALF_OPEN then
        { b1 with state := CBState.CLOSED, failure_count := 0 }
       else b1, true, false)
    else
      let fc := b1.failure_count + 1
      ({ b1 with
          failure_count := fc
          last_failure_time := some now
          state := if b1.failure_threshold ≤ fc then CBState.OPEN else b1.state },
       true, true)

/-- Sequential run of the breaker over timed call outcomes. -/
def Breaker.run (b : Breaker) (calls : List (ℚ × Bool)) : Breaker :=
  calls.foldl (fun st c => (st.call c.1 c.2).1) b

/-- Length of the longest run of failures (false entries) in a sequence of
call outcomes; used to state the consecutive-failure reading of the claim. -/
def maxConsecutiveFailures (outcomes : List Bool) : ℕ :=
  (outcomes.foldl
    (fun p o => if o then (0, p.2) else (p.1 + 1, max p.2 (p.1 + 1)))
    ((0, 0) : ℕ × ℕ)).2

/-! Concrete objects reused by witnesses and counterexamples. -/

/-- A snapshot with every optional metric absent. -/
def mNone : Metric := ⟨"a", none, none, none, none, none⟩

/-- A healthy snapshot for instance a (CPU 50%). -/
def mSafe : Metric := ⟨"a", some 50, none, none, none, none⟩

/-- An overloaded snapshot for instance b (CPU 99%). -/
def mHot : Metric := ⟨"b", some 99, none, none, none, none⟩

/-- A transform in which no dimension is fitted. -/
def trNone : Transform := fun _ _ => none

/-- A concrete UCB confidence term. -/
def confZero : ℕ → ℕ → ℚ := fun _ _ => 0

/-- A history in which a was selected once and b never. -/
def histA : List HistEntry := [⟨[0], "a"⟩]

/-! Helper lemmas. -/

theorem choiceD_mem {l : List String} (h : l ≠ []) (r : ℕ) : choiceD l r ∈ l := by
  have hlen : 0 < l.length := List.length_pos.mpr h
  have hlt : r % l.length < l.length := Nat.mod_lt _ hlen
  unfold choiceD
  rw [List.getD_eq_getElem?_getD, List.getElem?_eq_getElem hlt]
  exact List.getElem_mem hlt

theorem foldl_choose_mem (c : String → String → Bool) :
    ∀ (l : List String) (acc : String),
      List.foldl (fun best x => if c x best then x else best) acc l ∈ acc :: l := by
  intro l
  induction l with
  | nil => intro acc; simp
  | cons x xs ih =>
    intro acc
    simp only [List.foldl_cons]
    rcases List.mem_cons.mp (ih (if c x acc then x else acc)) with h1 | h1
    · rw [h1]
      by_cases hc : c x acc <;> simp [hc]
    · exact List.mem_cons_of_mem _ (List.mem_cons_of_mem _ h1)

theorem pickBest_mem {score : String → Option ℚ} :
    ∀ {l : List String} {a : String}, pickBest score l = some a → a ∈ l := by
  intro l a h
  cases l with
  | nil => simp [pickBest] at h
  | cons a0 rest =>
    simp only [pickBest, Option.some.injEq] at h
    rw [← h]
    exact foldl_choose_mem (fun x best => scoreGT (score x) (score best)) rest a0

theorem ucbSelection_mem {conf : ℕ → ℕ → ℚ} {hist : List HistEntry} {q : QTable}
    {s : StateKey} {avail : List String} {a : String}
    (h : ucbSelection conf hist q s avail = some a) : a ∈ avail := by
  unfold ucbSelection at h
  split at h
  next => exact absurd h (by simp)
  next => exact pickBest_mem h

theorem exploration_mem (conf : ℕ → ℕ → ℚ) (hist : List HistEntry) (q : QTable)
    (s : StateKey) {avail : List String} (metrics : List Metric) (r1 r2 r3 : ℕ)
    (h : avail ≠ []) :
    explorationStrategy conf hist q s avail metrics r1 r2 r3 ∈ avail := by
  unfold explorationStrategy
  dsimp only
  cases hu : (if 10 < hist.length then
      match ucbSelection conf hist q s avail with
      | some a => if a != "" && isSafeToExplore a metrics then some a else none
      | none => none
    else none) with
  | some a =>
    have ha : a ∈ avail := by
      split at hu
      · cases hq : ucbSelection conf hist q s avail with
        | none => rw [hq] at hu; exact absurd hu (by simp)
        | some a' =>
          rw [hq] at hu
          dsimp only at hu
          by_cases hc : (a' != "" && isSafeToExplore a' metrics) = true
          · rw [if_pos hc] at hu
            injection hu with hh
            exact hh ▸ ucbSelection_mem hq
          · rw [if_neg hc] at hu
            exact absurd hu (by simp)
      · exact absurd hu (by simp)
    exact ha
  | none =>
    have hsub1 : leastTriedActions hist avail ⊆ avail := List.filter_subset' _
    have hsub2 : (leastTriedActions hist avail).filter
        (fun a => isSafeToExplore a metrics) ⊆ avail :=
      fun _ hx => hsub1 (List.filter_subset' _ hx)
    dsimp only
    split
    · next hne =>
      refine hsub2 (choiceD_mem ?_ r1)
      simpa [List.isEmpty_iff] using hne
    · split
      · next hne =>
        refine hsub1 (choiceD_mem ?_ r2)
        simpa [List.isEmpty_iff] using hne
      · split
        · next hne =>
          refine List.filter_subset' _ (choiceD_mem ?_ r3)
          simpa [List.isEmpty_iff] using hne
        · exact choiceD_mem h r3

theorem headD_mem {α : Type} {l : List α} (h : l ≠ []) (d : α) : l.headD d ∈ l := by
  cases l with
  | nil => exact absurd rfl h
  | cons x xs => simp

theorem bestActionSet_fst (hist : List HistEntry) (sorted : List (String × ℚ))
    (maxq : ℚ) :
    ∀ x ∈ bestActionSet hist sorted maxq, ∃ p ∈ sorted, p.1 = x := by
  intro x hx
  unfold bestActionSet at hx
  dsimp only at hx
  have hof : ∀ {l : List (String × ℚ)}, l ⊆ sorted → x ∈ l.map Prod.fst →
      ∃ p ∈ sorted, p.1 = x := by
    intro l hl hx
    rcases List.mem_map.mp hx with ⟨p, hp, rfl⟩
    exact ⟨p, hl hp, rfl⟩
  split at hx
  · split at hx
    · exact hof (List.take_subset _ _) hx
    · exact hof (List.filter_subset' _) hx
  · exact hof (List.filter_subset' _) hx

theorem bestActionSet_ne_nil (hist : List HistEntry) {sorted : List (String × ℚ)}
    (hne : sorted ≠ []) {maxq : ℚ}
    (hhead : ∃ tl p1, sorted = (p1, maxq) :: tl) :
    bestActionSet hist sorted maxq ≠ [] := by
  rcases hhead with ⟨tl, p1, rfl⟩
  have htol : (0:ℚ) < max (1/5 : ℚ) (|maxq| * (3/20)) :=
    lt_max_of_lt_left (by norm_num)
  have h0 : (p1, maxq) ∈ ((p1, maxq) :: tl).filter
      (fun x => decide (|x.2 - maxq| ≤ max (1/5 : ℚ) (|maxq| * (3/20)))) := by
    refine List.mem_filter.mpr ⟨List.mem_cons_self _ _, ?_⟩
    simp only [decide_eq_true_eq, sub_self, abs_zero]
    exact le_of_lt htol
  have hb0 : (((p1, maxq) :: tl).filter
      (fun x => decide (|x.2 - maxq| ≤ max (1/5 : ℚ) (|maxq| * (3/20))))).map Prod.fst ≠ [] :=
    List.ne_nil_of_mem (List.mem_map_of_mem Prod.fst h0)
  have htake : (((p1, maxq) :: tl).take
      (min 3 ((p1, maxq) :: tl).length)).map Prod.fst ≠ [] := by
    have hlen : 0 < (((p1, maxq) :: tl).take (min 3 ((p1, maxq) :: tl).length)).length := by
      rw [List.length_take]
      simp [Nat.lt_succ_iff]
    intro hcon
    rw [← List.length_eq_zero] at hcon
    rw [List.length_map] at hcon
    omega
  unfold bestActionSet
  intro hcon
  dsimp only at hcon
  split at hcon
  · split at hcon
    · exact htake hcon
    · exact hb0 hcon
  · exact hb0 hcon

theorem exploitation_mem (hist : List HistEntry) (q : QTable) (s : StateKey)
    {avail : List String} (r4 : ℕ) (h : avail ≠ []) :
    exploitationStrategy hist q s avail r4 ∈ avail := by
  unfold exploitationStrategy
  dsimp only
  have hperm : List.Perm
      (List.insertionSort (fun x y : String × ℚ => x.2 ≥ y.2)
        (avail.map (fun a => (a, qget q (s, a)))))
      (avail.map (fun a => (a, qget q (s, a)))) :=
    List.perm_insertionSort _ _
  have hfst : ∀ p ∈ List.insertionSort (fun x y : String × ℚ => x.2 ≥ y.2)
      (avail.map (fun a => (a, qget q (s, a)))), p.1 ∈ avail := by
    intro p hp
    rcases List.mem_map.mp (hperm.mem_iff.mp hp) with ⟨a, ha, rfl⟩
    exact ha
  split
  case h_1 heq =>
    exfalso
    have hmapnil : avail.map (fun a => (a, qget q (s, a))) = [] := by
      have hl := hperm.length_eq
      rw [heq] at hl
      exact List.length_eq_zero.mp hl.symm
    exact h (by simpa using hmapnil)
  case h_2 p1 maxq tl heq =>
    have hsne : List.insertionSort (fun x y : String × ℚ => x.2 ≥ y.2)
        (avail.map (fun a => (a, qget q (s, a)))) ≠ [] := by
      rw [heq]; exact List.cons_ne_nil _ _
    have hbne := bestActionSet_ne_nil hist hsne ⟨tl, p1, heq⟩
    have hbsub : ∀ x ∈ bestActionSet hist
        (List.insertionSort (fun x y : String × ℚ => x.2 ≥ y.2)
          (avail.map (fun a => (a, qget q (s, a))))) maxq, x ∈ avail := by
      intro x hx
      rcases bestActionSet_fst _ _ _ x hx with ⟨p, hp, rfl⟩
      exact hfst p hp
    split
    · exact hbsub _ (headD_mem hbne _)
    · split
      · next hguard =>
        refine hbsub _ (List.filter_subset' _ (choiceD_mem ?_ r4))
        simpa [List.isEmpty_iff] using hguard
      · exact hbsub _ (choiceD_mem hbne r4)

/-- C1: ActionSelector.select_action raises ValueError (here: returns the
error value) exactly with the source's message when the available-actions
list is empty, and with a nonempty list it returns an element of that list
on every path - UCB exploration, least-tried exploration, random fallback,
exploitation tie-breaking, and the safety-override-exhausted path - for
every state key, Q-table, epsilon, episode, metrics list and randomness. -/
theorem C1_select_action_total (cfg : QConfig) (conf : ℕ → ℕ → ℚ)
    (hist : List HistEntry) (q : QTable) (s : StateKey) (epsilon : ℚ)
    (episode : ℕ) (metrics : List Metric) (rand : ℚ) (r1 r2 r3 r4 : ℕ) :
    select_action cfg conf hist q s [] epsilon episode metrics rand r1 r2 r3 r4 =
      Except.error "No available actions for selection" ∧
    ∀ avail : List String, avail ≠ [] →
      ∃ a, select_action cfg conf hist q s avail epsilon episode metrics rand
          r1 r2 r3 r4 = Except.ok a ∧ a ∈ avail := by
  refine ⟨rfl, ?_⟩
  intro avail ha
  unfold select_action
  rw [if_neg (by simp [List.isEmpty_iff, ha])]
  dsimp only
  by_cases hr : rand < adaptiveEpsilon cfg hist epsilon episode
  · rw [if_pos hr]
    exact ⟨_, rfl, exploration_mem conf hist q s metrics r1 r2 r3 ha⟩
  · rw [if_neg hr]
    exact ⟨_, rfl, exploitation_mem hist q s r4 ha⟩

/-- Witness for C1: both conjuncts evaluated at a concrete instantiation,
with the nonempty-list hypothesis discharged at ["a", "b"]. -/
theorem C1_witness :
    select_action defaultQConfig confZero [] [] [0] [] (1/4) 0 [] (1/2) 0 0 0 0 =
      Except.error "No available actions for selection" ∧
    ∃ a, select_action defaultQConfig confZero [] [] [0] ["a", "b"] (1/4) 0 []
        (1/2) 0 0 0 0 = Except.ok a ∧ a ∈ (["a", "b"] : List String) :=
  ⟨(C1_select_action_total defaultQConfig confZero [] [] [0] (1/4) 0 [] (1/2)
      0 0 0 0).1,
   (C1_select_action_total defaultQConfig confZero [] [] [0] (1/4) 0 [] (1/2)
      0 0 0 0).2 ["a", "b"] (by decide)⟩

/-- C4 counterexample: metrics are available, action a is safe (CPU 50) and
action b is unsafe (CPU 99 > 95); with a short history (UCB inactive) in
which a was tried once and b never, the exploration strategy returns the
unsafe least-tried action b even though the safe action a is available -
refuting the claim that a safe available action forces a safe selection. -/
theorem C4_counterexample :
    isSafeToExplore "a" [mSafe, mHot] = true ∧
    "a" ∈ (["a", "b"] : List String) ∧
    isSafeToExplore "b" [mSafe, mHot] = false ∧
    explorationStrategy confZero histA [] [0] ["a", "b"] [mSafe, mHot] 0 0 0 = "b" := by
  refine ⟨by decide, by decide, by decide, ?_⟩
  simp +decide [explorationStrategy, ucbSelection, histA, leastTriedActions,
    actionCounts, isSafeToExplore, overLimit, choiceD, mSafe, mHot]

/-- C4 (amended): the exploration path guarantees a safe selection when the
least-tried candidate set contains a safe action (the UCB pick, when taken,
is also checked for safety); when no available action passes the safety
predicate, exploration still returns some element of the available actions
(safety waived with a logged warning) rather than failing. -/
theorem C4_exploration_safety :
    (∀ (conf : ℕ → ℕ → ℚ) (hist : List HistEntry) (q : QTable) (s : StateKey)
        (avail : List String) (metrics : List Metric) (r1 r2 r3 : ℕ),
      (∃ a ∈ leastTriedActions hist avail, isSafeToExplore a metrics = true) →
      isSafeToExplore (explorationStrategy conf hist q s avail metrics r1 r2 r3)
        metrics = true) ∧
    (∀ (conf : ℕ → ℕ → ℚ) (hist : List HistEntry) (q : QTable) (s : StateKey)
        (avail : List String) (metrics : List Metric) (r1 r2 r3 : ℕ),
      avail ≠ [] → (∀ a ∈ avail, isSafeToExplore a metrics = false) →
      explorationStrategy conf hist q s avail metrics r1 r2 r3 ∈ avail) := by
  constructor
  · intro conf hist q s avail metrics r1 r2 r3 hex
    rcases hex with ⟨a0, ha0, hs0⟩
    unfold explorationStrategy
    dsimp only
    cases hu : (if 10 < hist.length then
        match ucbSelection conf hist q s avail with
        | some a => if a != "" && isSafeToExplore a metrics then some a else none
        | none => none
      else none) with
    | some a =>
      have hsafe : isSafeToExplore a metrics = true := by
        split at hu
        · cases hq : ucbSelection conf hist q s avail with
          | none => rw [hq] at hu; exact absurd hu (by simp)
          | some a' =>
            rw [hq] at hu
            dsimp only at hu
            by_cases hc : (a' != "" && isSafeToExplore a' metrics) = true
            · rw [if_pos hc] at hu
              injection hu with hh
              exact hh ▸ (Bool.and_eq_true _ _ ▸ hc).2
            · rw [if_neg hc] at hu
              exact absurd hu (by simp)
        · exact absurd hu (by simp)
      exact hsafe
    | none =>
      have hne : (leastTriedActions hist avail).filter
          (fun a => isSafeToExplore a metrics) ≠ [] :=
        List.ne_nil_of_mem (List.mem_filter.mpr ⟨ha0, hs0⟩)
      dsimp only
      rw [if_pos (by simpa [List.isEmpty_iff] using hne)]
      exact (List.mem_filter.mp (choiceD_mem hne r1)).2
  · intro conf hist q s avail metrics r1 r2 r3 hne _
    exact exploration_mem conf hist q s metrics r1 r2 r3 hne

/-- Witness for C4 (amended): the safe-least-tried hypothesis discharged at
a single safe action, and the no-safe-action hypothesis discharged at a
single overloaded action. -/
theorem C4_witness :
    ((∃ a ∈ leastTriedActions [] ["a"], isSafeToExplore a [mSafe] = true) ∧
      isSafeToExplore (explorationStrategy confZero [] [] [0] ["a"] [mSafe] 0 0 0)
        [mSafe] = true) ∧
    ((["b"] : List String) ≠ [] ∧ (∀ a ∈ (["b"] : List String),
        isSafeToExplore a [mHot] = false) ∧
      explorationStrategy confZero [] [] [0] ["b"] [mHot] 1 2 3 ∈ (["b"] : List String)) :=
  ⟨⟨by decide, C4_exploration_safety.1 confZero [] [] [0] ["a"] [mSafe] 0 0 0 (by decide)⟩,
   ⟨by decide, by decide,
    C4_exploration_safety.2 confZero [] [] [0] ["b"] [mHot] 1 2 3 (by decide) (by decide)⟩⟩

/-- C3 counterexample: before fit (fallback bucketing), a snapshot with a
missing CPU value encodes that dimension to bucket 0, not to a middle
bucket: 0 is neither the fitted middle bucket (16/2 = 8) nor the middle of
the fast-path bucket range 0..4 (2), refuting the claim for the pre-fit
case. -/
theorem C3_counterexample :
    mNone.cpu_usage_percent = none ∧
    (encodeState false trNone [mNone])[0]? = some 0 ∧
    (0 : ℤ) ≠ 8 ∧ (0 : ℤ) ≠ 2 :=
  ⟨rfl, by decide, by decide, by decide⟩

/-- C3 (amended): after fit, a missing metric value encodes to the middle
bucket metric_bins // 2 of its dimension (latency 10, cpu 8, error rate 6,
memory 8, throughput 8 - never bucket zero); before fit, a missing value
encodes to bucket 0.  Dimension positions follow each path's own order:
sorted names after fit, the fast-path order cpu/memory/latency/error/rps
before fit. -/
theorem C3_missing_value_buckets (tr : Transform) (m : Metric)
    (rest : List Metric) :
    (m.avg_response_time_ms = none →
      (encodeState true tr (m :: rest))[0]? = some 10 ∧
      (encodeState false tr (m :: rest))[2]? = some 0) ∧
    (m.cpu_usage_percent = none →
      (encodeState true tr (m :: rest))[1]? = some 8 ∧
      (encodeState false tr (m :: rest))[0]? = some 0) ∧
    (m.error_rate_percent = none →
      (encodeState true tr (m :: rest))[2]? = some 6 ∧
      (encodeState false tr (m :: rest))[3]? = some 0) ∧
    (m.jvm_memory_usage_percent = none →
      (encodeState true tr (m :: rest))[3]? = some 8 ∧
      (encodeState false tr (m :: rest))[1]? = some 0) ∧
    (m.request_rate_per_second = none →
      (encodeState true tr (m :: rest))[4]? = some 8 ∧
      (encodeState false tr (m :: rest))[4]? = some 0) := by
  refine ⟨fun h => ⟨?_, ?_⟩, fun h => ⟨?_, ?_⟩, fun h => ⟨?_, ?_⟩,
    fun h => ⟨?_, ?_⟩, fun h => ⟨?_, ?_⟩⟩ <;>
    simp [encodeState, discretizeMetrics, sortedMetricNames, metricValue,
      metricBins, fastEncodeState, h]

/-- Witness for C3 (amended): all five missing-value hypotheses discharged
at the all-absent snapshot. -/
theorem C3_witness :
    (mNone.avg_response_time_ms = none ∧
      (encodeState true trNone [mNone])[0]? = some 10 ∧
      (encodeState false trNone [mNone])[2]? = some 0) ∧
    (mNone.cpu_usage_percent = none ∧
      (encodeState true trNone [mNone])[1]? = some 8 ∧
      (encodeState false trNone [mNone])[0]? = some 0) ∧
    (mNone.error_rate_percent = none ∧
      (encodeState true trNone [mNone])[2]? = some 6 ∧
      (encodeState false trNone [mNone])[3]? = some 0) ∧
    (mNone.jvm_memory_usage_percent = none ∧
      (encodeState true trNone [mNone])[3]? = some 8 ∧
      (encodeState false trNone [mNone])[1]? = some 0) ∧
    (mNone.request_rate_per_second = none ∧
      (encodeState true trNone [mNone])[4]? = some 8 ∧
      (encodeState false trNone [mNone])[4]? = some 0) :=
  ⟨⟨rfl, (C3_missing_value_buckets trNone mNone []).1 rfl⟩,
   ⟨rfl, (C3_missing_value_buckets trNone mNone []).2.1 rfl⟩,
   ⟨rfl, (C3_missing_value_buckets trNone mNone []).2.2.1 rfl⟩,
   ⟨rfl, (C3_missing_value_buckets trNone mNone []).2.2.2.1 rfl⟩,
   ⟨rfl, (C3_missing_value_buckets trNone mNone []).2.2.2.2 rfl⟩⟩

/-- C7 counterexample: at a concrete non-empty snapshot list, encode_state
returns only the five per-metric dimensions; it differs from the
spec-modelled key that folds in the two system-level features (instance
count bucket, CPU variance bucket), which would have seven dimensions. -/
theorem C7_counterexample :
    encodeState false trNone [mNone] ≠ encodeStateWithSystemSpec false trNone [mNone] ∧
    (encodeState false trNone [mNone]).length = 5 ∧
    (encodeStateWithSystemSpec false trNone [mNone]).length = 7 :=
  ⟨by decide, by decide, by decide⟩

/-- C7 (amended): for every input, the StateKey produced by encode_state
consists of exactly the five per-metric dimensions; the system-level
features are computed by _encode_system_state, which encode_state never
invokes, so folding them in (as the spec-modelled variant does) would yield
seven dimensions on any non-empty input. -/
theorem C7_state_key_dims :
    (∀ (isFitted : Bool) (tr : Transform) (ms : List Metric),
      (encodeState isFitted tr ms).length = 5) ∧
    (∀ (isFitted : Bool) (tr : Transform) (ms : List Metric), ms ≠ [] →
      (encodeStateWithSystemSpec isFitted tr ms).length = 7) := by
  have hlen : ∀ (isFitted : Bool) (tr : Transform) (ms : List Metric),
      (encodeState isFitted tr ms).length = 5 := by
    intro isFitted tr ms
    cases ms with
    | nil => rfl
    | cons m rest =>
      cases isFitted with
      | false => rfl
      | true => rfl
  refine ⟨hlen, ?_⟩
  intro isFitted tr ms hne
  unfold encodeStateWithSystemSpec
  rw [List.length_append, hlen]
  have hsys : (encodeSystemState ms).length = 2 := by
    unfold encodeSystemState
    rw [if_neg (by simpa [List.isEmpty_iff] using hne)]
    rfl
  rw [hsys]

/-- Witness for C7 (amended): the non-empty hypothesis discharged at a
one-snapshot list. -/
theorem C7_witness :
    (encodeState false trNone [mNone]).length = 5 ∧
    ((([mNone] : List Metric) ≠ []) ∧
      (encodeStateWithSystemSpec false trNone [mNone]).length = 7) :=
  ⟨C7_state_key_dims.1 false trNone [mNone],
   ⟨by decide, C7_state_key_dims.2 false trNone [mNone] (by decide)⟩⟩

/-- C9: encode_state (and the memo-cache key it is stored under) depends
only on the first snapshot of a non-empty input list: two lists with equal
heads produce the same StateKey and the same cache key, whatever their
tails contain. -/
theorem C9_encode_head_only (isFitted : Bool) (tr : Transform) (m : Metric)
    (rest1 rest2 : List Metric) :
    encodeState isFitted tr (m :: rest1) = encodeState isFitted tr (m :: rest2) ∧
    metricsCacheKey (m :: rest1) = metricsCacheKey (m :: rest2) :=
  ⟨rfl, rfl⟩

/-! Q-table access lemmas. -/

theorem qget_cons_of_ne {e : (StateKey × String) × ℚ} {t : QTable}
    {k : StateKey × String} (h : e.1 ≠ k) : qget (e :: t) k = qget t k := by
  unfold qget
  rw [List.find?_cons_of_neg _ (by simpa using h)]

theorem qget_cons_of_eq {e : (StateKey × String) × ℚ} {t : QTable}
    {k : StateKey × String} (h : e.1 = k) : qget (e :: t) k = e.2 := by
  unfold qget
  rw [List.find?_cons_of_pos _ (by simpa using h)]

theorem qget_qset_same (t : QTable) (k : StateKey × String) (v : ℚ) :
    qget (qset t k v) k = v := by
  induction t with
  | nil => simp [qset, qget, List.find?]
  | cons e rest ih =>
    unfold qset
    by_cases he : e.1 = k
    · rw [if_pos he, qget_cons_of_eq rfl]
    · rw [if_neg he, qget_cons_of_ne he]
      exact ih

theorem qget_qset_of_ne {t : QTable} {k k' : StateKey × String} {v : ℚ}
    (h : k' ≠ k) : qget (qset t k v) k' = qget t k' := by
  induction t with
  | nil =>
    unfold qset
    rw [qget_cons_of_ne (fun hc => h hc.symm)]
  | cons e rest ih =>
    unfold qset
    by_cases he : e.1 = k
    · rw [if_pos he]
      have h1 : qget ((k, v) :: rest) k' = qget rest k' :=
        qget_cons_of_ne (fun hc => h hc.symm)
      have h2 : qget (e :: rest) k' = qget rest k' :=
        qget_cons_of_ne (fun hc => h (hc.symm.trans he))
      rw [h1, h2]
    · rw [if_neg he]
      by_cases hek : e.1 = k'
      · rw [qget_cons_of_eq hek, qget_cons_of_eq hek]
      · rw [qget_cons_of_ne hek, qget_cons_of_ne hek]
        exact ih

theorem qget_append_of_none {t : QTable} {k : StateKey × String} {v : ℚ}
    (h : t.find? (fun e => decide (e.1 = k)) = none) :
    qget (t ++ [(k, v)]) k = v := by
  induction t with
  | nil => simp [qget, List.find?]
  | cons e rest ih =>
    by_cases he : e.1 = k
    · rw [List.find?_cons_of_pos _ (by simpa using he)] at h
      exact absurd h (by simp)
    · rw [List.find?_cons_of_neg _ (by simpa using he)] at h
      rw [List.cons_append, qget_cons_of_ne he]
      exact ih h

theorem qget_append_of_ne {t : QTable} {k k' : StateKey × String} {v : ℚ}
    (h : k' ≠ k) : qget (t ++ [(k, v)]) k' = qget t k' := by
  induction t with
  | nil =>
    rw [List.nil_append, qget_cons_of_ne (fun hc => h hc.symm)]
  | cons e rest ih =>
    by_cases hek : e.1 = k'
    · rw [List.cons_append, qget_cons_of_eq hek, qget_cons_of_eq hek]
    · rw [List.cons_append, qget_cons_of_ne hek, qget_cons_of_ne hek]
      exact ih

theorem possible_append (t : QTable) (k : StateKey × String) (v : ℚ)
    (s' : StateKey) :
    possibleActionsForState (t ++ [(k, v)]) s' =
      possibleActionsForState t s' ++ (if k.1 = s' then [k.2] else []) := by
  unfold possibleActionsForState
  rw [List.map_append, List.filter_append, List.map_append]
  congr 1
  by_cases hk : k.1 = s'
  · simp [hk]
  · simp [hk]

theorem possible_qset_of_ne {t : QTable} {k : StateKey × String} {v : ℚ}
    {s' : StateKey} (h : k.1 ≠ s') :
    possibleActionsForState (qset t k v) s' = possibleActionsForState t s' := by
  induction t with
  | nil =>
    unfold qset possibleActionsForState
    simp [h]
  | cons e rest ih =>
    unfold qset
    by_cases he : e.1 = k
    · rw [if_pos he]
      unfold possibleActionsForState
      have he' : e.1.1 ≠ s' := by rw [he]; exact h
      simp only [List.map_cons, List.filter_cons]
      rw [if_neg (by simpa using h), if_neg (by simpa using he')]
    · rw [if_neg he]
      unfold possibleActionsForState
      simp only [List.map_cons, List.filter_cons]
      by_cases hes : e.1.1 = s'
      · rw [if_pos (by simpa using hes), if_pos (by simpa using hes)]
        simp only [List.map_cons, List.cons.injEq, true_and]
        exact ih
      · rw [if_neg (by simpa using hes), if_neg (by simpa using hes)]
        exact ih

theorem possible_mem_key {t : QTable} {s : StateKey} {a2 : String}
    (h : a2 ∈ possibleActionsForState t s) : (s, a2) ∈ t.map (·.1) := by
  unfold possibleActionsForState at h
  rcases List.mem_map.mp h with ⟨k, hk, rfl⟩
  rcases List.mem_filter.mp hk with ⟨hmem, hpred⟩
  have hk1 : k.1 = s := by simpa using hpred
  have : (k.1, k.2) = k := rfl
  rw [← hk1, this]
  exact hmem

theorem find?_eq_none_of_qmem_false {t : QTable} {k : StateKey × String}
    (h : qmem t k = false) : t.find? (fun e => decide (e.1 = k)) = none := by
  rw [List.find?_eq_none]
  intro e he
  have := (List.any_eq_false.mp h) e he
  simpa using this

theorem key_not_mem_of_qmem_false {t : QTable} {k : StateKey × String}
    (h : qmem t k = false) : k ∉ t.map (·.1) := by
  intro hmem
  rcases List.mem_map.mp hmem with ⟨e, he, hek⟩
  have := (List.any_eq_false.mp h) e he
  rw [hek] at this
  simp at this

theorem max?_append_single_getD (xs : List ℚ) (y : ℚ) :
    ((xs ++ [y]).max?).getD y = max ((xs.max?).getD y) y := by
  cases xs with
  | nil => simp [List.max?]
  | cons x r =>
    simp only [List.cons_append, List.max?, List.foldl_append, List.foldl_cons,
      List.foldl_nil, Option.getD_some]

/-- ddRead splits into the looked-up value and the possibly extended table. -/
theorem ddRead_fst (t : QTable) (k : StateKey × String) :
    (ddRead t k).1 = qget t k := by
  unfold ddRead qget
  cases t.find? (fun e => decide (e.1 = k)) <;> rfl

/-- Value written by _update_q_value at (s, a) when the defaultdict read
cannot disturb the next-state action set: if s' differs from s, or (s, a)
was already recorded, the new value is the Bellman formula whose max ranges
over the actions previously recorded for s'. -/
theorem qget_update_formula (cfg : QConfig) (t : QTable) (s : StateKey)
    (a : String) (r : ℚ) (s' : StateKey)
    (h : s' ≠ s ∨ qmem t (s, a) = true) :
    qget (update_q_value cfg t s a r s') (s, a) =
      qget t (s, a) + cfg.learning_rate * (r + cfg.discount_factor *
        (((possibleActionsForState t s').map (fun a2 => qget t (s', a2))).max?.getD 0)
        - qget t (s, a)) := by
  unfold update_q_value
  dsimp only
  cases hf : t.find? (fun e => decide (e.1 = (s, a))) with
  | some e =>
    have hdd : ddRead t (s, a) = (e.2, t) := by unfold ddRead; rw [hf]
    have hq : qget t (s, a) = e.2 := by unfold qget; rw [hf]
    rw [hdd, qget_qset_same, hq]
  | none =>
    have hdd : ddRead t (s, a) = (0, t ++ [((s, a), 0)]) := by
      unfold ddRead; rw [hf]
    have hs : s' ≠ s := by
      rcases h with h | h
      · exact h
      · exfalso
        rcases List.any_eq_true.mp h with ⟨e, he, hek⟩
        have := List.find?_eq_none.mp hf e he
        exact this hek
    have hq0 : qget t (s, a) = 0 := by unfold qget; rw [hf]
    have hpa : possibleActionsForState (t ++ [((s, a), 0)]) s' =
        possibleActionsForState t s' := by
      rw [possible_append]
      rw [if_neg (fun hc => hs hc.symm)]
      simp
    have hvals : (possibleActionsForState t s').map
        (fun a2 => qget (t ++ [((s, a), 0)]) (s', a2)) =
        (possibleActionsForState t s').map (fun a2 => qget t (s', a2)) := by
      apply List.map_congr_left
      intro a2 _
      exact qget_append_of_ne (fun hc => hs (congrArg Prod.fst hc))
    rw [hdd, hpa, hvals, qget_qset_same, hq0]

/-- Value written by _update_q_value at (s, a) in the self-transition fresh
case s' = s with (s, a) unrecorded: the defaultdict read inserts (s, a)
with 0.0 first, so the max additionally sees that fresh 0. -/
theorem qget_update_formula_self_fresh (cfg : QConfig) (t : QTable)
    (s : StateKey) (a : String) (r : ℚ)
    (h : qmem t (s, a) = false) :
    qget (update_q_value cfg t s a r s) (s, a) =
      cfg.learning_rate * (r + cfg.discount_factor *
        (max (((possibleActionsForState t s).map
          (fun a2 => qget t (s, a2))).max?.getD 0) 0)) := by
  have hf : t.find? (fun e => decide (e.1 = (s, a))) = none :=
    find?_eq_none_of_qmem_false h
  unfold update_q_value
  dsimp only
  have hdd : ddRead t (s, a) = (0, t ++ [((s, a), 0)]) := by
    unfold ddRead; rw [hf]
  have hpa : possibleActionsForState (t ++ [((s, a), 0)]) s =
      possibleActionsForState t s ++ [a] := by
    rw [possible_append, if_pos rfl]
  have hvals : (possibleActionsForState t s).map
      (fun a2 => qget (t ++ [((s, a), 0)]) (s, a2)) =
      (possibleActionsForState t s).map (fun a2 => qget t (s, a2)) := by
    apply List.map_congr_left
    intro a2 ha2
    have hne : a2 ≠ a := by
      intro hc
      exact key_not_mem_of_qmem_false h (hc ▸ possible_mem_key ha2)
    exact qget_append_of_ne (fun hc => hne (congrArg Prod.snd hc))
  have hlast : qget (t ++ [((s, a), 0)]) (s, a) = 0 := qget_append_of_none hf
  rw [hdd, hpa, List.map_append, List.map_singleton, hvals, hlast,
    max?_append_single_getD, qget_qset_same]
  ring

/-- C2 counterexample: with the default config (alpha 0.3, gamma 0.95),
table {(([0]), b) -> -1}, and the self-transition update s = s' = [0] on
the unrecorded action a with reward 0: the claim's Bellman rule (max only
over the previously recorded action b, Q = -1) yields -0.285 = -57/200,
but the code's defaultdict read first inserts (([0]), a) with 0.0, the max
becomes 0, and the written value is 0. -/
theorem C2_counterexample :
    qget (update_q_value defaultQConfig [((([0] : StateKey), "b"), -1)]
      [0] "a" 0 [0]) ([0], "a") = 0 ∧
    qget (bellmanUpdateSpec defaultQConfig [((([0] : StateKey), "b"), -1)]
      [0] "a" 0 [0]) ([0], "a") = -(57/200) ∧
    (0 : ℚ) ≠ -(57/200) := by
  refine ⟨?_, ?_, by norm_num⟩
  · norm_num +decide [update_q_value, ddRead, qget, qset, possibleActionsForState,
      defaultQConfig, List.find?, List.max?]
  · norm_num +decide [bellmanUpdateSpec, qmem, qget, qset, possibleActionsForState,
      defaultQConfig, List.find?, List.max?]

/-- C2 (amended): the Q-table update applies the Bellman rule
Q(s,a) <- Q(s,a) + alpha*(r + gamma*maxQ(s') - Q(s,a)); whenever s' differs
from s or (s,a) is already recorded, the max ranges exactly over the
actions previously recorded for s' (empty set giving 0), agreeing with the
spec-modelled rule; in the remaining case s' = s with (s,a) unrecorded, the
defaultdict read first inserts (s,a) with 0.0, so the max additionally
includes that fresh 0. -/
theorem C2_bellman_update :
    (∀ (cfg : QConfig) (t : QTable) (s : StateKey) (a : String) (r : ℚ)
        (s' : StateKey), (s' ≠ s ∨ qmem t (s, a) = true) →
      qget (update_q_value cfg t s a r s') (s, a) =
        qget (bellmanUpdateSpec cfg t s a r s') (s, a)) ∧
    (∀ (cfg : QConfig) (t : QTable) (s : StateKey) (a : String) (r : ℚ),
      qmem t (s, a) = false →
      qget (update_q_value cfg t s a r s) (s, a) =
        cfg.learning_rate * (r + cfg.discount_factor *
          (max (((possibleActionsForState t s).map
            (fun a2 => qget t (s, a2))).max?.getD 0) 0))) := by
  constructor
  · intro cfg t s a r s' h
    have hspec : qget (bellmanUpdateSpec cfg t s a r s') (s, a) =
        qget t (s, a) + cfg.learning_rate * (r + cfg.discount_factor *
          (((possibleActionsForState t s').map
            (fun a2 => qget t (s', a2))).max?.getD 0) - qget t (s, a)) := by
      unfold bellmanUpdateSpec
      dsimp only
      rw [qget_qset_same]
    rw [hspec]
    exact qget_update_formula cfg t s a r s' h
  · exact fun cfg t s a r h => qget_update_formula_self_fresh cfg t s a r h

/-- Witness for C2 (amended): the distinct-state branch at s = [0],
s' = [1] over the empty table; the self-transition branch at the
unrecorded pair ([0], a) over the empty table. -/
theorem C2_witness :
    (([1] : StateKey) ≠ [0] ∧
      qget (update_q_value defaultQConfig [] [0] "a" 1 [1]) ([0], "a") =
        qget (bellmanUpdateSpec defaultQConfig [] [0] "a" 1 [1]) ([0], "a")) ∧
    (qmem [] ([0], "a") = false ∧
      qget (update_q_value defaultQConfig [] [0] "a" 1 [0]) ([0], "a") =
        defaultQConfig.learning_rate * (1 + defaultQConfig.discount_factor *
          (max (((possibleActionsForState [] [0]).map
            (fun a2 => qget [] ([0], a2))).max?.getD 0) 0))) :=
  ⟨⟨by decide, C2_bellman_update.1 defaultQConfig [] [0] "a" 1 [1]
      (Or.inl (by decide))⟩,
   ⟨rfl, C2_bellman_update.2 defaultQConfig [] [0] "a" 1 rfl⟩⟩

/-- An update at (s, a) leaves the recorded action set and the values of
every other state s' unchanged. -/
theorem update_preserves_other_state (cfg : QConfig) (t : QTable)
    (s : StateKey) (a : String) (r : ℚ) {s' : StateKey} (h : s' ≠ s) :
    possibleActionsForState (update_q_value cfg t s a r s') s' =
      possibleActionsForState t s' ∧
    ∀ a2, qget (update_q_value cfg t s a r s') (s', a2) = qget t (s', a2) := by
  have hkey : ∀ a2 : String, ((s', a2) : StateKey × String) ≠ (s, a) :=
    fun a2 hc => h (congrArg Prod.fst hc)
  unfold update_q_value
  dsimp only
  cases hf : t.find? (fun e => decide (e.1 = (s, a))) with
  | some e =>
    have hdd : ddRead t (s, a) = (e.2, t) := by unfold ddRead; rw [hf]
    rw [hdd]
    constructor
    · exact possible_qset_of_ne (fun hc => h hc.symm)
    · intro a2
      exact qget_qset_of_ne (hkey a2)
  | none =>
    have hdd : ddRead t (s, a) = (0, t ++ [((s, a), 0)]) := by
      unfold ddRead; rw [hf]
    rw [hdd]
    constructor
    · rw [possible_qset_of_ne (fun hc => h hc.symm), possible_append,
        if_neg (fun hc => h hc.symm)]
      simp
    · intro a2
      rw [qget_qset_of_ne (hkey a2), qget_append_of_ne (hkey a2)]

/-- C8 counterexample: with the default config over the empty table, the
update ([0], a, reward 1, next state [1]) writes Q = 0.3; repeating the
identical update immediately writes Q = 0.51, not 0.3 - the update is not
idempotent. -/
theorem C8_counterexample :
    qget (update_q_value defaultQConfig [] [0] "a" 1 [1]) ([0], "a") = 3/10 ∧
    qget (update_q_value defaultQConfig
      (update_q_value defaultQConfig [] [0] "a" 1 [1]) [0] "a" 1 [1])
      ([0], "a") = 51/100 ∧
    (3/10 : ℚ) ≠ 51/100 := by
  refine ⟨?_, ?_, by norm_num⟩
  · norm_num +decide [update_q_value, ddRead, qget, qset, possibleActionsForState,
      defaultQConfig, List.find?, List.max?]
  · norm_num +decide [update_q_value, ddRead, qget, qset, possibleActionsForState,
      defaultQConfig, List.find?, List.max?]

/-- C8 (amended): the update is a deterministic function of its inputs, but
repeating it in succession is not idempotent: for s' distinct from s the
second application moves the value further toward the TD target by the
geometric law q2 - q1 = (1 - alpha)*(q1 - q0); the two applications yield
the same new value exactly when that difference vanishes (alpha = 1 or the
first update already left the value at its target). -/
theorem C8_repeat_update (cfg : QConfig) (t : QTable) (s : StateKey)
    (a : String) (r : ℚ) (s' : StateKey) (h : s' ≠ s) :
    qget (update_q_value cfg (update_q_value cfg t s a r s') s a r s') (s, a) -
      qget (update_q_value cfg t s a r s') (s, a) =
    (1 - cfg.learning_rate) *
      (qget (update_q_value cfg t s a r s') (s, a) - qget t (s, a)) := by
  obtain ⟨hpa, hvals⟩ := update_preserves_other_state cfg t s a r h
  have e1 := qget_update_formula cfg t s a r s' (Or.inl h)
  have e2 := qget_update_formula cfg (update_q_value cfg t s a r s') s a r s'
    (Or.inl h)
  rw [hpa] at e2
  have hmap : (possibleActionsForState t s').map
      (fun a2 => qget (update_q_value cfg t s a r s') (s', a2)) =
      (possibleActionsForState t s').map (fun a2 => qget t (s', a2)) :=
    List.map_congr_left (fun a2 _ => hvals a2)
  rw [hmap] at e2
  rw [e2, e1]
  ring

/-- Witness for C8 (amended): the distinct-state hypothesis discharged at
s = [0], s' = [1] over the empty table. -/
theorem C8_witness :
    (([1] : StateKey) ≠ [0]) ∧
    (qget (update_q_value defaultQConfig
        (update_q_value defaultQConfig [] [0] "a" 1 [1]) [0] "a" 1 [1])
        ([0], "a") -
      qget (update_q_value defaultQConfig [] [0] "a" 1 [1]) ([0], "a") =
    (1 - defaultQConfig.learning_rate) *
      (qget (update_q_value defaultQConfig [] [0] "a" 1 [1]) ([0], "a") -
        qget ([] : QTable) ([0], "a"))) :=
  ⟨by decide, C8_repeat_update defaultQConfig [] [0] "a" 1 [1] (by decide)⟩

/-- A concrete reward function (RewardCalculator stand-in). -/
def rewardOne : List Metric → List Metric → String → ℚ := fun _ _ _ => 1

/-- A concrete encoder stand-in mapping every metrics list to state [1]. -/
def encodeOne : List Metric → StateKey := fun _ => [1]

/-- A concrete pod-specific reward stand-in. -/
def podRewardOne : String → List Metric → ℚ := fun _ _ => 1

/-- An agent with no pending previous state or action. -/
def agNoState : Agent := ⟨[], 1/4, 0, some [0], none, none, 0, none⟩

/-- An agent with a complete pending (previous state, action, current
state) transition and an empty Q-table. -/
def agPending : Agent := ⟨[], 1/4, 0, some [0], some [0], some "a", 0, none⟩

/-- C10: QLearningAgent.update_q_table returns with the agent completely
unchanged - same Q-table, epsilon and episode counter - whenever any of
previous_state, last_action, current_state is None; the result does not
depend on the reward function or the encoder, so no reward is computed. -/
theorem C10_update_requires_state (cfg : QConfig)
    (rewardFn : List Metric → List Metric → String → ℚ)
    (encodeFn : List Metric → StateKey) (ag : Agent)
    (newMetrics prevMetrics : List Metric)
    (h : ag.previous_state = none ∨ ag.last_action = none ∨
      ag.current_state = none) :
    update_q_table cfg rewardFn encodeFn ag newMetrics prevMetrics = ag := by
  obtain ⟨qt, eps, ec, cs, ps, la, lrw, pm⟩ := ag
  cases ps <;> cases la <;> cases cs <;> simp_all [update_q_table]

/-- Witness for C10: the missing-state hypothesis discharged at an agent
whose previous_state is None. -/
theorem C10_witness :
    agNoState.previous_state = none ∧
    update_q_table defaultQConfig rewardOne encodeOne agNoState [] [] =
      agNoState :=
  ⟨rfl, C10_update_requires_state defaultQConfig rewardOne encodeOne agNoState
    [] [] (Or.inl rfl)⟩

/-- C5 counterexample: a feedback call that finds NO matching decision
context but reaches an agent with a complete pending transition falls back
to that state and DOES update the Q-table (here the empty table gains the
entry (([0]), a)) - refuting the claim that unattributable feedback leaves
every (state, action) entry unchanged. -/
theorem C5_counterexample :
    findDecisionContext [] "svc" "a" 0 = none ∧
    (provide_feedback defaultQConfig rewardOne encodeOne podRewardOne
      agPending [] "svc" "a" 0 []).1.q_table ≠ agPending.q_table := by
  refine ⟨rfl, ?_⟩
  norm_num +decide [provide_feedback, findDecisionContext, update_q_table,
    update_q_value, ddRead, qget, qset, possibleActionsForState, defaultQConfig,
    agPending, rewardOne, encodeOne, podRewardOne, List.find?, List.max?]

/-- C5 (amended): a Feedback call that finds no matching decision context
falls back to the agent's own pending state: when that state is incomplete
(previous_state, last_action or current_state is None) the call returns the
computed reward with agent and cache unchanged - no table update; when the
fallback state is complete, the Q-table IS updated from it. -/
theorem C5_unattributable_feedback :
    (∀ (cfg : QConfig) (rewardFn : List Metric → List Metric → String → ℚ)
        (encodeFn : List Metric → StateKey)
        (podRewardFn : String → List Metric → ℚ) (ag : Agent)
        (cache : ContextCache) (service pod : String) (now : ℚ)
        (currentMetrics : List Metric),
      findDecisionContext cache service pod now = none →
      (ag.previous_state = none ∨ ag.last_action = none ∨
        ag.current_state = none) →
      provide_feedback cfg rewardFn encodeFn podRewardFn ag cache service pod
          now currentMetrics =
        (ag, cache, ⟨FeedbackStatus.received_no_update,
          podRewardFn pod currentMetrics⟩)) ∧
    (∀ (cfg : QConfig) (rewardFn : List Metric → List Metric → String → ℚ)
        (encodeFn : List Metric → StateKey)
        (podRewardFn : String → List Metric → ℚ) (ag : Agent)
        (cache : ContextCache) (service pod : String) (now : ℚ)
        (currentMetrics : List Metric) (ps cs : StateKey) (la : String),
      findDecisionContext cache service pod now = none →
      ag.previous_state = some ps → ag.last_action = some la →
      ag.current_state = some cs →
      (provide_feedback cfg rewardFn encodeFn podRewardFn ag cache service pod
          now currentMetrics).1.q_table =
        update_q_value cfg ag.q_table ps la
          (rewardFn currentMetrics (ag.previous_metrics.getD currentMetrics) la)
          (encodeFn currentMetrics)) := by
  constructor
  · intro cfg rewardFn encodeFn podRewardFn ag cache service pod now
      currentMetrics hfind h
    unfold provide_feedback
    rw [hfind]
    dsimp only
    rcases h with h | h | h <;> simp [h]
  · intro cfg rewardFn encodeFn podRewardFn ag cache service pod now
      currentMetrics ps cs la hfind hps hla hcs
    unfold provide_feedback
    rw [hfind]
    dsimp only
    rw [hps, hla, hcs]
    simp [update_q_table, hps, hla, hcs]

/-- Witness for C5 (amended): the incomplete-fallback conjunct at the
agent with no previous state, the complete-fallback conjunct at the agent
with a full pending transition, both over the empty context cache. -/
theorem C5_witness :
    (findDecisionContext [] "svc" "a" 0 = none ∧
      (agNoState.previous_state = none ∨ agNoState.last_action = none ∨
        agNoState.current_state = none) ∧
      provide_feedback defaultQConfig rewardOne encodeOne podRewardOne
          agNoState [] "svc" "a" 0 [] =
        (agNoState, [], ⟨FeedbackStatus.received_no_update,
          podRewardOne "a" []⟩)) ∧
    (agPending.previous_state = some [0] ∧ agPending.last_action = some "a" ∧
      agPending.current_state = some [0] ∧
      (provide_feedback defaultQConfig rewardOne encodeOne podRewardOne
          agPending [] "svc" "a" 0 []).1.q_table =
        update_q_value defaultQConfig agPending.q_table [0] "a"
          (rewardOne [] (agPending.previous_metrics.getD []) "a")
          (encodeOne [])) :=
  ⟨⟨rfl, Or.inl rfl,
    C5_unattributable_feedback.1 defaultQConfig rewardOne encodeOne
      podRewardOne agNoState [] "svc" "a" 0 [] rfl (Or.inl rfl)⟩,
   ⟨rfl, rfl, rfl,
    C5_unattributable_feedback.2 defaultQConfig rewardOne encodeOne
      podRewardOne agPending [] "svc" "a" 0 [] [0] [0] "a" rfl rfl rfl rfl⟩⟩

/-- The timed call sequence fail, success, fail, success, fail. -/
def seqC6 : List (ℚ × Bool) :=
  [(0, false), (1, true), (2, false), (3, true), (4, false)]

/-- C6 counterexample: the API's breaker (threshold 3, cooldown 20) opens
after the sequence fail, success, fail, success, fail - three CUMULATIVE
failures but a longest failure streak of only 1, because a success in the
CLOSED state does not reset failure_count.  This refutes "transitions to
OPEN exactly after K consecutive failures". -/
theorem C6_counterexample :
    ((Breaker.init 3 20).run seqC6).state = CBState.OPEN ∧
    maxConsecutiveFailures (seqC6.map (·.2)) = 1 ∧ (1 : ℕ) < 3 := by
  refine ⟨?_, by decide, by decide⟩
  simp +decide [Breaker.run, Breaker.call, Breaker.init, seqC6]

/-- C6 (amended): the breaker opens when the CUMULATIVE failure count since
the last reset reaches the threshold (K = 3 in the API instance): a failure
in CLOSED increments the count and opens the breaker exactly when the
incremented count reaches the threshold, while a success in CLOSED changes
nothing (in particular it does not reset the count); while OPEN within the
cooldown every call raises without invoking the agent and leaves the
breaker unchanged; a call arriving after the cooldown performs one
HALF_OPEN trial invoking the agent: on success the breaker closes with the
count reset to 0, on failure it re-opens (staying HALF_OPEN only in the
unreachable case of a count still below the threshold). -/
theorem C6_breaker_transitions :
    (∀ (b : Breaker) (now : ℚ), b.state = CBState.CLOSED →
      (b.call now false).1.state =
        (if b.failure_threshold ≤ b.failure_count + 1 then CBState.OPEN
         else CBState.CLOSED) ∧
      (b.call now false).1.failure_count = b.failure_count + 1) ∧
    (∀ (b : Breaker) (now : ℚ), b.state = CBState.CLOSED →
      (b.call now true).1 = b) ∧
    (∀ (b : Breaker) (now t : ℚ) (ok : Bool), b.state = CBState.OPEN →
      b.last_failure_time = some t → now - t ≤ b.recovery_timeout →
      b.call now ok = (b, false, true)) ∧
    (∀ (b : Breaker) (now t : ℚ), b.state = CBState.OPEN →
      b.last_failure_time = some t → b.recovery_timeout < now - t →
      ((b.call now true).1.state = CBState.CLOSED ∧
        (b.call now true).1.failure_count = 0 ∧
        (b.call now true).2.1 = true) ∧
      ((b.call now false).1.state =
          (if b.failure_threshold ≤ b.failure_count + 1 then CBState.OPEN
           else CBState.HALF_OPEN) ∧
        (b.call now false).2.1 = true)) := by
  refine ⟨?_, ?_, ?_, ?_⟩
  · intro b now h
    constructor <;>
      · by_cases hth : b.failure_threshold ≤ b.failure_count + 1 <;>
          simp [Breaker.call, h, hth]
  · intro b now h
    simp [Breaker.call, h]
  · intro b now t ok h hlft hle
    have hnot : ¬ b.recovery_timeout < now - t := not_lt.mpr hle
    simp [Breaker.call, h, hlft, hnot]
  · intro b now t h hlft hlt
    constructor
    · simp [Breaker.call, h, hlft, hlt]
    · constructor <;>
        · by_cases hth : b.failure_threshold ≤ b.failure_count + 1 <;>
            simp [Breaker.call, h, hlft, hlt, hth]

/-- An OPEN breaker with the API's parameters, count at the threshold, last
failure stamped at time 0. -/
def bOpen3 : Breaker := ⟨3, 20, 3, some 0, CBState.OPEN⟩

/-- Witness for C6 (amended): each conjunct applied at a concrete breaker -
a fresh CLOSED breaker for the first two, the OPEN breaker inside (now 5)
and past (now 25) the 20-second cooldown for the last two. -/
theorem C6_witness :
    (((Breaker.init 3 20).call 0 false).1.state =
        (if (Breaker.init 3 20).failure_threshold ≤
            (Breaker.init 3 20).failure_count + 1 then CBState.OPEN
         else CBState.CLOSED) ∧
      ((Breaker.init 3 20).call 0 false).1.failure_count =
        (Breaker.init 3 20).failure_count + 1) ∧
    (((Breaker.init 3 20).call 0 true).1 = Breaker.init 3 20) ∧
    (bOpen3.call 5 true = (bOpen3, false, true)) ∧
    ((bOpen3.call 25 true).1.state = CBState.CLOSED ∧
      (bOpen3.call 25 true).1.failure_count = 0 ∧
      (bOpen3.call 25 true).2.1 = true) ∧
    ((bOpen3.call 25 false).1.state =
        (if bOpen3.failure_threshold ≤ bOpen3.failure_count + 1 then
          CBState.OPEN else CBState.HALF_OPEN) ∧
      (bOpen3.call 25 false).2.1 = true) :=
  ⟨C6_breaker_transitions.1 (Breaker.init 3 20) 0 rfl,
   C6_breaker_transitions.2.1 (Breaker.init 3 20) 0 rfl,
   C6_breaker_transitions.2.2.1 bOpen3 5 0 true rfl rfl (by norm_num [bOpen3]),
   (C6_breaker_transitions.2.2.2 bOpen3 25 0 rfl rfl (by norm_num [bOpen3])).1,
   (C6_breaker_transitions.2.2.2 bOpen3 25 0 rfl rfl (by norm_num [bOpen3])).2⟩

end AILB
